import Mathlib

/-!
Verification of the chonker95 spatial-grid text reconstruction core
(src/main.rs).  The development shallowly embeds the grid quantizer
(render_spatial_grid), the viewport extractor (get_viewport_text), the
buffer rebuild entry point (rebuild_text_buffer) and the cursor editing
primitives (insert_char_at_cursor, delete_char_at_cursor).  Source
f32 coordinates are modelled as rationals; the Rust cast `as usize`
(truncation toward zero, negatives saturating to 0) is `ratToUsize`.
Fallible vector indexing is modelled by Option-returning accessors, so
`none` corresponds to an index-out-of-bounds panic in the source.
-/

namespace Chonker95

/-- A positioned token, mirroring struct AltoElement of src/main.rs
(fields id/screen_x/screen_y are irrelevant to the grid algorithms and
omitted; content is the list of the string's chars). -/
structure AltoElement where
  content : List Char
  hpos : ℚ
  vpos : ℚ
  width : ℚ
  height : ℚ
  deriving Repr, DecidableEq

/-- The content grid: a vector of rows of chars, as Vec of Vec of char. -/
abbrev Grid := List (List Char)

/-- Rust cast of a (finite) float to usize: truncate toward zero,
negative values saturate to 0.  For q below 0 the floor is negative and
Int.toNat yields 0; for q at least 0 truncation equals the floor. -/
def ratToUsize (q : ℚ) : Nat := (⌊q⌋).toNat

/-- The character scaling factor from PDF coordinates (0.15 in the source). -/
def scaleFactor : ℚ := 15 / 100

/-- The zero-width space the source writes as a continuation marker into
the cell right of a wide character. -/
def zwspChar : Char := Char.ofNat 0x200B

/-- Modelled from the unicode-width dependency (an external crate, not
part of this repository): the value of ch.width().unwrap_or(1) as used
by the placement loop.  Wide East-Asian characters (the blocks used in
this development: CJK Unified Ideographs, Hangul syllables, fullwidth
forms) report 2, the zero-width space reports 0, and every other
character, including controls whose width is None before unwrap_or,
reports 1. -/
def charWidth (c : Char) : Nat :=
  if c.val = 0x200B then 0
  else if (0x4E00 ≤ c.val ∧ c.val ≤ 0x9FFF) ∨
          (0xAC00 ≤ c.val ∧ c.val ≤ 0xD7A3) ∨
          (0xFF00 ≤ c.val ∧ c.val ≤ 0xFF60) then 2
  else 1

/-- Checked 2-D read, self.content_grid[y][x] used inside a condition:
none models an index-out-of-bounds panic. -/
def getCell? (g : Grid) (y x : Nat) : Option Char :=
  match g[y]? with
  | none => none
  | some row => row[x]?

/-- Checked 2-D write, self.content_grid[y][x] = c: none models an
index-out-of-bounds panic. -/
def setCell? (g : Grid) (y x : Nat) (c : Char) : Option Grid :=
  match g[y]? with
  | none => none
  | some row =>
    if x < row.length then some (g.set y (row.set x c)) else none

/-- The freshly allocated grid vec of vec of spaces of the given size. -/
def mkGrid (w h : Nat) : Grid := List.replicate h (List.replicate w ' ')

/-- The body of one iteration of the character-placement loop of
render_spatial_grid (src/main.rs lines 528-538) after the fit check:
if the bounds checks pass and the cell is empty, write the char, and
for a width-2 char also mark the next cell with the zero-width-space
continuation marker. -/
def placeStep (cw : Char → Nat) (gw gh fy : Nat) (g : Grid) (x : Nat)
    (ch : Char) : Option Grid :=
  if x < gw ∧ fy < gh then do
    let cell ← getCell? g fy x
    if cell = ' ' then do
      let g1 ← setCell? g fy x ch
      if cw ch = 2 ∧ x + 1 < gw then setCell? g1 fy (x + 1) zwspChar
      else pure g1
    else pure g
  else pure g

/-- The inner character-placement loop of render_spatial_grid
(src/main.rs lines 519-541), for one element whose chars start at
column x on clamped row fy.  cw is the character-width function.
Breaking out of the loop when the character no longer fits returns the
grid accumulated so far; the remaining characters are dropped. -/
def placeChars (cw : Char → Nat) (gw gh fy : Nat) :
    Grid → Nat → List Char → Option Grid
  | g, _, [] => some g
  | g, x, ch :: rest =>
    if x + cw ch > gw then some g
    else do
      let g' ← placeStep cw gw gh fy g x ch
      placeChars cw gw gh fy g' (x + cw ch) rest

/-- The per-element loop of render_spatial_grid (lines 513-542): each
element is quantized to a starting cell by the translated, scaled,
usize-cast coordinates, the row is clamped to the last grid row, and
its characters are placed. -/
def placeAll (cw : Char → Nat) (gw gh : Nat) (mnx mny : ℚ) :
    Grid → List AltoElement → Option Grid
  | g, [] => some g
  | g, e :: es => do
    let gx := ratToUsize ((e.hpos - mnx) * scaleFactor)
    let gy := ratToUsize ((e.vpos - mny) * scaleFactor)
    let fy := min gy (gh - 1)
    let g' ← placeChars cw gw gh fy g gx e.content
    placeAll cw gw gh mnx mny g' es

/-- Minimum hpos over the elements (fold of f32 min over a nonempty
list; the source folds from f32 INFINITY and is only run nonempty). -/
def minHpos : List AltoElement → ℚ
  | [] => 0
  | e :: es => es.foldl (fun a x => min a x.hpos) e.hpos

/-- Maximum of hpos + width over the elements. -/
def maxHpos : List AltoElement → ℚ
  | [] => 0
  | e :: es => es.foldl (fun a x => max a (x.hpos + x.width)) (e.hpos + e.width)

/-- Minimum vpos over the elements. -/
def minVpos : List AltoElement → ℚ
  | [] => 0
  | e :: es => es.foldl (fun a x => min a x.vpos) e.vpos

/-- Maximum of vpos + height over the elements. -/
def maxVpos : List AltoElement → ℚ
  | [] => 0
  | e :: es => es.foldl (fun a x => max a (x.vpos + x.height)) (e.vpos + e.height)

/-- Grid width computed by render_spatial_grid (line 508). -/
def gridWidthOf (es : List AltoElement) : Nat :=
  max (ratToUsize (max (maxHpos es - minHpos es) 1 * scaleFactor) + 50) 300

/-- Grid height computed by render_spatial_grid (line 509). -/
def gridHeightOf (es : List AltoElement) : Nat :=
  max (ratToUsize (max (maxVpos es - minVpos es) 1 * scaleFactor) + 20) 100

/-- The grid-construction body of render_spatial_grid (lines 497-542):
bounds, sizing, allocation and element placement, returning the new
content grid with its dimensions.  none models a panic. -/
def renderGridCore (cw : Char → Nat) (es : List AltoElement) :
    Option (Grid × Nat × Nat) :=
  let gw := gridWidthOf es
  let gh := gridHeightOf es
  (placeAll cw gw gh (minHpos es) (minVpos es) (mkGrid gw gh) es).map
    (fun g => (g, gw, gh))

/-- Rust char::is_whitespace: the Unicode White_Space property. -/
def rustIsWhitespace (c : Char) : Bool :=
  (0x09 ≤ c.val ∧ c.val ≤ 0x0D) ∨ c.val = 0x20 ∨ c.val = 0x85 ∨
    c.val = 0xA0 ∨ c.val = 0x1680 ∨ (0x2000 ≤ c.val ∧ c.val ≤ 0x200A) ∨
    c.val = 0x2028 ∨ c.val = 0x2029 ∨ c.val = 0x202F ∨ c.val = 0x205F ∨
    c.val = 0x3000

/-- Rust str::trim_end on a char list: drop trailing whitespace. -/
def rtrimChars (cs : List Char) : List Char :=
  (cs.reverse.dropWhile rustIsWhitespace).reverse

/-- One viewport row of get_viewport_text (lines 561-569): the cells at
screen columns sx, sx+1, ... for n more columns; out-of-grid-width
columns render as a space, and each in-width access is the checked read
self.content_grid[grid_y][grid_x]. -/
def vpRow (g : Grid) (gw gy offX : Nat) : Nat → Nat → Option (List Char)
  | _, 0 => some []
  | sx, n + 1 => do
    let gx := sx + offX
    let c ← if gx < gw then getCell? g gy gx else some ' '
    let rest ← vpRow g gw gy offX (sx + 1) n
    some (c :: rest)

/-- The viewport rows of get_viewport_text (lines 555-576): rows past
the grid height render as empty lines, rows inside it as the
right-trimmed cell run of width vw. -/
def vpLines (g : Grid) (gw gh offX offY vw : Nat) :
    Nat → Nat → Option (List (List Char))
  | _, 0 => some []
  | sy, n + 1 => do
    let gy := sy + offY
    let line ←
      if gy < gh then do
        let cs ← vpRow g gw gy offX 0 vw
        pure (rtrimChars cs)
      else pure []
    let rest ← vpLines g gw gh offX offY vw (sy + 1) n
    pure (line :: rest)

/-- get_viewport_text (src/main.rs lines 548-579): a viewport of at
most min(terminal_width, 120) columns and min(terminal_height - 2, 50)
rows starting at the stored offsets; each rendered row is right-trimmed
and newline-terminated, and the whole result is right-trimmed.  none
models an index panic in the checked cell reads. -/
def getViewportText (g : Grid) (gw gh termW termH offX offY : Nat) :
    Option (List Char) := do
  let vw := min termW 120
  let vh := min (termH - 2) 50
  let lines ← vpLines g gw gh offX offY vw 0 vh
  pure (rtrimChars ((lines.map (fun l => l ++ ['\n'])).flatten))

/-- The grid-related state of WysiwygEditor that rebuild_text_buffer
and render_spatial_grid read and write. -/
structure EditorGridState where
  textBuffer : List Char
  contentGrid : Grid
  gridWidth : Nat
  gridHeight : Nat
  viewportOffsetX : Nat
  viewportOffsetY : Nat
  deriving Repr, DecidableEq

/-- render_spatial_grid (lines 492-546) as a state transformer: empty
elements short-circuit to the empty string without touching the grid;
otherwise the grid fields are rebuilt and the viewport text of the new
grid is returned. -/
def renderSpatialGrid (cw : Char → Nat) (termW termH : Nat)
    (es : List AltoElement) (st : EditorGridState) :
    Option (List Char × EditorGridState) :=
  if es = [] then some ([], st)
  else do
    let r ← renderGridCore cw es
    let st' := { st with contentGrid := r.1, gridWidth := r.2.1,
                         gridHeight := r.2.2 }
    let txt ← getViewportText r.1 r.2.1 r.2.2 termW termH
      st.viewportOffsetX st.viewportOffsetY
    pure (txt, st')

/-- rebuild_text_buffer (lines 482-490): empty elements set the text
buffer to the empty string and return at once; otherwise the buffer is
set to the spatial-grid rendering. -/
def rebuildTextBuffer (cw : Char → Nat) (termW termH : Nat)
    (es : List AltoElement) (st : EditorGridState) :
    Option EditorGridState :=
  if es = [] then some { st with textBuffer := [] }
  else do
    let r ← renderSpatialGrid cw termW termH es st
    pure { r.2 with textBuffer := r.1 }

/-- Split a char list at every newline, keeping all pieces (so the
result is always nonempty and the pieces contain no newline). -/
def splitNlAll : List Char → List (List Char)
  | [] => [[]]
  | c :: cs =>
    if c = '\n' then [] :: splitNlAll cs
    else
      match splitNlAll cs with
      | r :: rs => (c :: r) :: rs
      | [] => [[c]]

/-- Join lines with a single newline separator, as str::join over a
line vector does in the source. -/
def joinNl : List (List Char) → List Char
  | [] => []
  | [l] => l
  | l :: ls => l ++ '\n' :: joinNl ls

/-- Rust str::lines over a char-list buffer: split at newlines and drop
one trailing empty piece (carriage returns do not occur in the buffers
this core builds and are not modelled). -/
def rustLines (cs : List Char) : List (List Char) :=
  let ps := splitNlAll cs
  if ps.getLast? = some [] then ps.dropLast else ps

/-- UTF-8 byte length of a char list, as String len in the source. -/
def utf8Length (cs : List Char) : Nat := (cs.map Char.utf8Size).sum

/-- The char_indices scan of insert_char_at_cursor (lines 990-998):
walking chars with their byte offsets, break with the current offset as
soon as the running char count reaches cursor x; none means the loop
ran out without breaking. -/
def scpLoop (x : Nat) : List Char → Nat → Nat → Option Nat
  | [], _, _ => none
  | ch :: rest, i, cnt =>
    if x ≤ cnt then some i else scpLoop x rest (i + ch.utf8Size) (cnt + 1)

/-- safe_cursor_pos of insert_char_at_cursor (lines 989-1005): the byte
offset where the char_indices loop broke, the byte length when the char
count stayed below cursor x, and the initial value 0 otherwise. -/
def safeCursorPos (line : List Char) (x : Nat) : Nat :=
  match scpLoop x line 0 0 with
  | some bp => bp
  | none => if line.length < x then utf8Length line else 0

/-- Rust String::insert at a byte index: none models the panic on an
index that is out of range or not a character boundary. -/
def byteInsert? (c : Char) : List Char → Nat → Option (List Char)
  | l, 0 => some (c :: l)
  | [], _ + 1 => none
  | a :: l, p + 1 =>
    if p + 1 < a.utf8Size then none
    else (byteInsert? c l (p + 1 - a.utf8Size)).map (fun r => a :: r)

/-- Rust String::split_off at a byte index, returning the kept front
and the split-off tail: none models the boundary/range panic. -/
def byteSplitOff? : List Char → Nat → Option (List Char × List Char)
  | l, 0 => some ([], l)
  | [], _ + 1 => none
  | a :: l, p + 1 =>
    if p + 1 < a.utf8Size then none
    else (byteSplitOff? l (p + 1 - a.utf8Size)).map
      (fun r => (a :: r.1, r.2))

/-- Rust Vec::insert: none models the panic when the index exceeds the
length. -/
def vecInsert? (ls : List (List Char)) (i : Nat) (x : List Char) :
    Option (List (List Char)) :=
  if i ≤ ls.length then some (ls.take i ++ x :: ls.drop i) else none

/-- insert_char_at_cursor (src/main.rs lines 969-1027) on the buffer
and cursor: split the buffer into lines, append empty lines until the
cursor row exists, pad the cursor line with spaces up to the cursor
column, compute the safe byte position, then either split the line for
a newline or insert the char at the clamped byte position, and rejoin.
none models any panic in the byte-index operations. -/
def insertCharAtCursor (buf : List Char) (cx cy : Nat) (c : Char) :
    Option (List Char × Nat × Nat) := do
  let lines0 := rustLines buf
  let lines1 := lines0 ++ List.replicate (cy + 1 - lines0.length) []
  let line0 ← lines1[cy]?
  let line1 := line0 ++ List.replicate (cx - line0.length) ' '
  let sp := safeCursorPos line1 cx
  if c = '\n' then do
    let pr ← if sp < utf8Length line1 then byteSplitOff? line1 sp
             else pure (line1, [])
    let lines2 := lines1.set cy pr.1
    let lines3 ← vecInsert? lines2 (cy + 1) pr.2
    pure (joinNl lines3, 0, cy + 1)
  else do
    let ipos := min sp (utf8Length line1)
    let line2 ← byteInsert? c line1 ipos
    pure (joinNl (lines1.set cy line2), cx + 1, cy)

/-- delete_char_at_cursor (src/main.rs lines 1029-1058) on the buffer
and cursor: a guard makes cursor x = 0 a complete no-op; otherwise the
buffer is rebuilt line by line, removing the char left of the cursor on
the cursor row (clamped, skipped when past the end) and decrementing
cursor x when the cursor row exists. -/
def deleteCharAtCursor (buf : List Char) (cx cy : Nat) :
    List Char × Nat × Nat :=
  if 0 < cx then
    let lines := rustLines buf
    let newLines := lines.enum.map (fun p =>
      if p.1 = cy then
        let k := min (cx - 1) p.2.length
        if k < p.2.length then p.2.eraseIdx k else p.2
      else p.2)
    let cx' := if cy < lines.length then cx - 1 else cx
    (joinNl newLines, cx', cy)
  else (buf, cx, cy)

/-- A row is fully blank when every cell is a space. -/
def rowBlank (r : List Char) : Bool := r.all (fun c => c = ' ')

/-- Drop trailing spaces from a row (the per-row right-trim of the
Grid/Text Bridge, which trims only spaces since cells hold spaces as
fill). -/
def rtrimSpaces (cs : List Char) : List Char :=
  (cs.reverse.dropWhile (fun c => c = ' ')).reverse

/-- Trim leading and trailing fully-blank rows, keeping everything
between the first and last row holding a non-space char inclusive. -/
def trimBlankRows (g : Grid) : Grid :=
  ((g.dropWhile rowBlank).reverse.dropWhile rowBlank).reverse

/-- Modelled from the spec: to_text of the Grid/Text Bridge is absent
from src (spec section 4.5); render each row by joining its cells and
right-trimming trailing spaces, join rows with newline, after trimming
the leading and trailing fully-blank rows of the document, preserving
interior blank rows exactly. -/
def toText (g : Grid) : List Char :=
  joinNl ((trimBlankRows g).map rtrimSpaces)

/-- Modelled from the spec: from_text of the Grid/Text Bridge is absent
from src (spec section 4.5); clear all cells to space, then for each
line of the input text (by row index) and each character (by column
index), both bounded by the grid dimensions, write the character into
the corresponding cell; characters beyond the bounds are dropped.
Stated pointwise: cell (r, c) holds character c of line r when that
line and column exist, else the space fill. -/
def fromText (w h : Nat) (t : List Char) : Grid :=
  (List.range h).map (fun r =>
    (List.range w).map (fun c => ((splitNlAll t).getD r []).getD c ' '))

/-- The stored grid dimensions match the actual vec-of-vec sizes. -/
def wellFormed (g : Grid) (gw gh : Nat) : Prop :=
  g.length = gh ∧ ∀ r ∈ g, r.length = gw

/-- Number of displayed rows of a rendered text: zero for the empty
text, else one more than the newline count. -/
def lineCount (cs : List Char) : Nat :=
  if cs = [] then 0 else cs.count '\n' + 1

/-- Length of the longest line of a rendered text. -/
def maxLineLen (cs : List Char) : Nat :=
  ((splitNlAll cs).map List.length).foldr max 0

theorem wellFormed_mkGrid (gw gh : Nat) : wellFormed (mkGrid gw gh) gw gh := by
  refine ⟨List.length_replicate _ _, fun r hr => ?_⟩
  rw [List.eq_of_mem_replicate hr]
  exact List.length_replicate _ _

theorem getCell?_isSome_of_wf {g : Grid} {gw gh y x : Nat}
    (hwf : wellFormed g gw gh) (hy : y < gh) (hx : x < gw) :
    ∃ c, getCell? g y x = some c := by
  obtain ⟨hlen, hrows⟩ := hwf
  have hy' : y < g.length := hlen ▸ hy
  have hrow : g[y]? = some g[y] := List.getElem?_eq_getElem hy'
  have hmem : g[y] ∈ g := List.getElem_mem hy'
  have hxlen : x < g[y].length := (hrows _ hmem) ▸ hx
  exact ⟨g[y][x], by simp [getCell?, hrow, List.getElem?_eq_getElem hxlen]⟩

theorem setCell?_eq_some_iff {g g' : Grid} {y x : Nat} {c : Char} :
    setCell? g y x c = some g' ↔
      ∃ row, g[y]? = some row ∧ x < row.length ∧
        g' = g.set y (row.set x c) := by
  unfold setCell?
  cases hg : g[y]? with
  | none => simp
  | some row =>
    by_cases hx : x < row.length <;> simp [hx] <;> aesop

theorem setCell?_isSome_of_wf {g : Grid} {gw gh y x : Nat}
    (hwf : wellFormed g gw gh) (hy : y < gh) (hx : x < gw) (c : Char) :
    ∃ g', setCell? g y x c = some g' := by
  obtain ⟨hlen, hrows⟩ := hwf
  have hy' : y < g.length := hlen ▸ hy
  have hrow : g[y]? = some g[y] := List.getElem?_eq_getElem hy'
  have hmem : g[y] ∈ g := List.getElem_mem hy'
  have hxlen : x < g[y].length := (hrows _ hmem) ▸ hx
  exact ⟨_, setCell?_eq_some_iff.mpr ⟨g[y], hrow, hxlen, rfl⟩⟩

theorem setCell?_wf {g g' : Grid} {gw gh y x : Nat} {c : Char}
    (h : setCell? g y x c = some g') (hwf : wellFormed g gw gh) :
    wellFormed g' gw gh := by
  obtain ⟨row, hrow, hx, rfl⟩ := setCell?_eq_some_iff.mp h
  obtain ⟨hlen, hrows⟩ := hwf
  refine ⟨by simp [hlen], fun r hr => ?_⟩
  rcases List.mem_or_eq_of_mem_set hr with hr' | rfl
  · exact hrows r hr'
  · rw [List.length_set]
    exact hrows row (by
      obtain ⟨hylt, hget⟩ := List.getElem?_eq_some_iff.mp hrow
      exact hget ▸ List.getElem_mem hylt)

theorem setCell?_get_self {g g' : Grid} {y x : Nat} {c : Char}
    (h : setCell? g y x c = some g') : getCell? g' y x = some c := by
  obtain ⟨row, hrow, hx, rfl⟩ := setCell?_eq_some_iff.mp h
  obtain ⟨hylt, _⟩ := List.getElem?_eq_some_iff.mp hrow
  simp [getCell?, List.getElem?_set_self hylt, List.getElem?_set_self hx]

theorem setCell?_get_other {g g' : Grid} {y x : Nat} {c : Char}
    (h : setCell? g y x c = some g') (y' x' : Nat)
    (hne : y' ≠ y ∨ x' ≠ x) :
    getCell? g' y' x' = getCell? g y' x' := by
  obtain ⟨row, hrow, hx, rfl⟩ := setCell?_eq_some_iff.mp h
  obtain ⟨hylt, _⟩ := List.getElem?_eq_some_iff.mp hrow
  rcases hne with hne | hne
  · simp [getCell?, List.getElem?_set_ne (Ne.symm hne)]
  · by_cases hy' : y' = y
    · subst hy'
      simp [getCell?, List.getElem?_set_self hylt, hrow,
        List.getElem?_set_ne (Ne.symm hne)]
    · simp [getCell?, List.getElem?_set_ne (fun h => hy' h.symm)]

theorem placeStep_isSome_wf (cw : Char → Nat) (gw gh fy : Nat) (g : Grid)
    (x : Nat) (ch : Char) (hwf : wellFormed g gw gh) :
    ∃ g', placeStep cw gw gh fy g x ch = some g' ∧ wellFormed g' gw gh := by
  by_cases hb : x < gw ∧ fy < gh
  · obtain ⟨c, hc⟩ := getCell?_isSome_of_wf hwf hb.2 hb.1
    by_cases hsp : c = ' '
    · obtain ⟨g1, hg1⟩ := setCell?_isSome_of_wf hwf hb.2 hb.1 ch
      have hwf1 := setCell?_wf hg1 hwf
      by_cases h2 : cw ch = 2 ∧ x + 1 < gw
      · obtain ⟨g2, hg2⟩ := setCell?_isSome_of_wf hwf1 hb.2 h2.2 zwspChar
        exact ⟨g2, by simp [placeStep, hb, hc, hsp, hg1, h2, hg2],
          setCell?_wf hg2 hwf1⟩
      · exact ⟨g1, by simp [placeStep, hb, hc, hsp, hg1, h2], hwf1⟩
    · exact ⟨g, by simp [placeStep, hb, hc, hsp], hwf⟩
  · exact ⟨g, by simp [placeStep, hb], hwf⟩

theorem placeStep_other_rows (cw : Char → Nat) (gw gh fy : Nat)
    (g g' : Grid) (x : Nat) (ch : Char)
    (h : placeStep cw gw gh fy g x ch = some g') (y x' : Nat)
    (hy : y ≠ fy) : getCell? g' y x' = getCell? g y x' := by
  unfold placeStep at h
  by_cases hb : x < gw ∧ fy < gh
  · simp only [hb, if_true] at h
    cases hcell : getCell? g fy x with
    | none => rw [hcell] at h; simp at h
    | some c =>
      rw [hcell] at h
      simp only [Option.bind_eq_bind, Option.some_bind] at h
      by_cases hsp : c = ' '
      · simp only [hsp, if_true] at h
        cases hset : setCell? g fy x ch with
        | none => rw [hset] at h; simp at h
        | some g1 =>
          rw [hset] at h
          simp only [Option.bind_eq_bind, Option.some_bind] at h
          by_cases h2 : cw ch = 2 ∧ x + 1 < gw
          · simp only [h2, if_true] at h
            calc getCell? g' y x'
                = getCell? g1 y x' :=
                  setCell?_get_other h y x' (Or.inl hy)
              _ = getCell? g y x' :=
                  setCell?_get_other hset y x' (Or.inl hy)
          · simp only [h2, if_false] at h
            cases h
            exact setCell?_get_other hset y x' (Or.inl hy)
      · simp only [hsp, if_false] at h
        cases h
        rfl
  · simp only [hb, if_false] at h
    cases h
    rfl

theorem placeStep_nonspace (cw : Char → Nat) (gw gh fy : Nat)
    (g g' : Grid) (x : Nat) (ch : Char)
    (h : placeStep cw gw gh fy g x ch = some g') (y0 x0 : Nat) (c0 : Char)
    (hc0 : getCell? g y0 x0 = some c0) (hns : c0 ≠ ' ') :
    getCell? g' y0 x0 = some c0 ∨ getCell? g' y0 x0 = some zwspChar := by
  unfold placeStep at h
  by_cases hb : x < gw ∧ fy < gh
  · simp only [hb, if_true] at h
    cases hcell : getCell? g fy x with
    | none => rw [hcell] at h; simp at h
    | some c =>
      rw [hcell] at h
      simp only [Option.bind_eq_bind, Option.some_bind] at h
      by_cases hsp : c = ' '
      · simp only [hsp, if_true] at h
        cases hset : setCell? g fy x ch with
        | none => rw [hset] at h; simp at h
        | some g1 =>
          rw [hset] at h
          simp only [Option.bind_eq_bind, Option.some_bind] at h
          have hne1 : y0 ≠ fy ∨ x0 ≠ x := by
            by_contra hcon
            push_neg at hcon
            rw [hcon.1, hcon.2, hcell] at hc0
            rw [hsp] at hc0
            exact hns (by injection hc0 with h'; exact h'.symm)
          have hg1c : getCell? g1 y0 x0 = some c0 := by
            rw [setCell?_get_other hset y0 x0 hne1]
            exact hc0
          by_cases h2 : cw ch = 2 ∧ x + 1 < gw
          · simp only [h2, if_true] at h
            by_cases hne2 : y0 = fy ∧ x0 = x + 1
            · right
              rw [hne2.1, hne2.2]
              exact setCell?_get_self h
            · left
              have hne2' : y0 ≠ fy ∨ x0 ≠ x + 1 := by
                by_contra hcon
                push_neg at hcon
                exact hne2 hcon
              rw [setCell?_get_other h y0 x0 hne2']
              exact hg1c
          · simp only [h2, if_false] at h
            cases h
            exact Or.inl hg1c
      · simp only [hsp, if_false] at h
        cases h
        exact Or.inl hc0
  · simp only [hb, if_false] at h
    cases h
    exact Or.inl hc0

theorem placeChars_isSome_wf (cw : Char → Nat) (gw gh fy : Nat)
    (cs : List Char) :
    ∀ (g : Grid) (x : Nat), wellFormed g gw gh →
      ∃ g', placeChars cw gw gh fy g x cs = some g' ∧
        wellFormed g' gw gh := by
  induction cs with
  | nil => exact fun g x hwf => ⟨g, rfl, hwf⟩
  | cons ch rest ih =>
    intro g x hwf
    by_cases hfit : x + cw ch > gw
    · exact ⟨g, by simp [placeChars, hfit], hwf⟩
    · obtain ⟨g1, hg1, hwf1⟩ := placeStep_isSome_wf cw gw gh fy g x ch hwf
      obtain ⟨g', hg', hwf'⟩ := ih g1 (x + cw ch) hwf1
      exact ⟨g', by simp [placeChars, hfit, hg1, hg'], hwf'⟩

theorem placeChars_other_rows (cw : Char → Nat) (gw gh fy : Nat)
    (cs : List Char) :
    ∀ (g g' : Grid) (x : Nat),
      placeChars cw gw gh fy g x cs = some g' →
      ∀ (y x' : Nat), y ≠ fy → getCell? g' y x' = getCell? g y x' := by
  induction cs with
  | nil =>
    intro g g' x h y x' _
    cases h
    rfl
  | cons ch rest ih =>
    intro g g' x h y x' hy
    by_cases hfit : x + cw ch > gw
    · simp only [placeChars, hfit, if_true] at h
      cases h
      rfl
    · simp only [placeChars, hfit, if_false] at h
      cases hstep : placeStep cw gw gh fy g x ch with
      | none => rw [hstep] at h; simp at h
      | some g1 =>
        rw [hstep] at h
        simp only [Option.bind_eq_bind, Option.some_bind] at h
        calc getCell? g' y x'
            = getCell? g1 y x' := ih g1 g' (x + cw ch) h y x' hy
          _ = getCell? g y x' :=
            placeStep_other_rows cw gw gh fy g g1 x ch hstep y x' hy

theorem placeChars_nonspace (cw : Char → Nat) (gw gh fy : Nat)
    (cs : List Char) :
    ∀ (g g' : Grid) (x : Nat),
      placeChars cw gw gh fy g x cs = some g' →
      ∀ (y0 x0 : Nat) (c0 : Char), getCell? g y0 x0 = some c0 → c0 ≠ ' ' →
        getCell? g' y0 x0 = some c0 ∨ getCell? g' y0 x0 = some zwspChar := by
  induction cs with
  | nil =>
    intro g g' x h y0 x0 c0 hc0 _
    cases h
    exact Or.inl hc0
  | cons ch rest ih =>
    intro g g' x h y0 x0 c0 hc0 hns
    by_cases hfit : x + cw ch > gw
    · simp only [placeChars, hfit, if_true] at h
      cases h
      exact Or.inl hc0
    · simp only [placeChars, hfit, if_false] at h
      cases hstep : placeStep cw gw gh fy g x ch with
      | none => rw [hstep] at h; simp at h
      | some g1 =>
        rw [hstep] at h
        simp only [Option.bind_eq_bind, Option.some_bind] at h
        rcases placeStep_nonspace cw gw gh fy g g1 x ch hstep y0 x0 c0 hc0
            hns with h1 | h1
        · exact ih g1 g' (x + cw ch) h y0 x0 c0 h1 hns
        · rcases ih g1 g' (x + cw ch) h y0 x0 zwspChar h1
              (by decide) with h2 | h2
          · exact Or.inr h2
          · exact Or.inr h2

theorem placeAll_isSome_wf (cw : Char → Nat) (gw gh : Nat) (mnx mny : ℚ)
    (es : List AltoElement) :
    ∀ (g : Grid), wellFormed g gw gh →
      ∃ g', placeAll cw gw gh mnx mny g es = some g' ∧
        wellFormed g' gw gh := by
  induction es with
  | nil => exact fun g hwf => ⟨g, rfl, hwf⟩
  | cons e rest ih =>
    intro g hwf
    obtain ⟨g1, hg1, hwf1⟩ := placeChars_isSome_wf cw gw gh
      (min (ratToUsize ((e.vpos - mny) * scaleFactor)) (gh - 1))
      e.content g (ratToUsize ((e.hpos - mnx) * scaleFactor)) hwf
    obtain ⟨g', hg', hwf'⟩ := ih g1 hwf1
    refine ⟨g', ?_, hwf'⟩
    simp only [placeAll, Option.bind_eq_bind]
    rw [hg1]
    simpa using hg'

theorem placeAll_nonspace (cw : Char → Nat) (gw gh : Nat) (mnx mny : ℚ)
    (es : List AltoElement) :
    ∀ (g g' : Grid), placeAll cw gw gh mnx mny g es = some g' →
      ∀ (y0 x0 : Nat) (c0 : Char), getCell? g y0 x0 = some c0 → c0 ≠ ' ' →
        getCell? g' y0 x0 = some c0 ∨ getCell? g' y0 x0 = some zwspChar := by
  induction es with
  | nil =>
    intro g g' h y0 x0 c0 hc0 _
    cases h
    exact Or.inl hc0
  | cons e rest ih =>
    intro g g' h y0 x0 c0 hc0 hns
    simp only [placeAll, Option.bind_eq_bind] at h
    cases hpc : placeChars cw gw gh
        (min (ratToUsize ((e.vpos - mny) * scaleFactor)) (gh - 1)) g
        (ratToUsize ((e.hpos - mnx) * scaleFactor)) e.content with
    | none => rw [hpc] at h; simp at h
    | some g1 =>
      rw [hpc] at h
      simp only [Option.some_bind] at h
      rcases placeChars_nonspace cw gw gh _ e.content g g1 _ hpc y0 x0 c0
          hc0 hns with h1 | h1
      · exact ih g1 g' h y0 x0 c0 h1 hns
      · rcases ih g1 g' h y0 x0 zwspChar h1 (by decide) with h2 | h2
        · exact Or.inr h2
        · exact Or.inr h2

theorem renderGridCore_isSome_wf (cw : Char → Nat)
    (es : List AltoElement) :
    ∃ g, renderGridCore cw es =
        some (g, gridWidthOf es, gridHeightOf es) ∧
      wellFormed g (gridWidthOf es) (gridHeightOf es) := by
  obtain ⟨g, hg, hwf⟩ := placeAll_isSome_wf cw (gridWidthOf es)
    (gridHeightOf es) (minHpos es) (minVpos es) es
    (mkGrid (gridWidthOf es) (gridHeightOf es))
    (wellFormed_mkGrid _ _)
  exact ⟨g, by simp [renderGridCore, hg], hwf⟩

theorem getCell?_mkGrid {w h y x : Nat} (hy : y < h) (hx : x < w) :
    getCell? (mkGrid w h) y x = some ' ' := by
  simp [getCell?, mkGrid, List.getElem?_replicate, hy, hx]

theorem placeStep_writes (cw : Char → Nat) (gw gh fy : Nat) (g : Grid)
    (x : Nat) (ch : Char) (hb : x < gw) (hfy : fy < gh)
    (hsp : getCell? g fy x = some ' ') (hwf : wellFormed g gw gh) :
    ∃ g', placeStep cw gw gh fy g x ch = some g' ∧
      getCell? g' fy x = some ch ∧ wellFormed g' gw gh := by
  obtain ⟨g1, hg1⟩ := setCell?_isSome_of_wf hwf hfy hb ch
  have hwf1 := setCell?_wf hg1 hwf
  by_cases h2 : cw ch = 2 ∧ x + 1 < gw
  · obtain ⟨g2, hg2⟩ := setCell?_isSome_of_wf hwf1 hfy h2.2 zwspChar
    refine ⟨g2, by simp [placeStep, hb, hfy, hsp, hg1, h2, hg2], ?_,
      setCell?_wf hg2 hwf1⟩
    rw [setCell?_get_other hg2 fy x (Or.inr (by omega))]
    exact setCell?_get_self hg1
  · exact ⟨g1, by simp [placeStep, hb, hfy, hsp, hg1, h2],
      setCell?_get_self hg1, hwf1⟩

theorem placeAll_other_rows (cw : Char → Nat) (gw gh : Nat) (mnx mny : ℚ)
    (es : List AltoElement) :
    ∀ (g g' : Grid), placeAll cw gw gh mnx mny g es = some g' →
      ∀ (y x' : Nat),
        (∀ e ∈ es,
          y ≠ min (ratToUsize ((e.vpos - mny) * scaleFactor)) (gh - 1)) →
        getCell? g' y x' = getCell? g y x' := by
  induction es with
  | nil =>
    intro g g' h y x' _
    cases h
    rfl
  | cons e rest ih =>
    intro g g' h y x' hy
    simp only [placeAll, Option.bind_eq_bind] at h
    cases hpc : placeChars cw gw gh
        (min (ratToUsize ((e.vpos - mny) * scaleFactor)) (gh - 1)) g
        (ratToUsize ((e.hpos - mnx) * scaleFactor)) e.content with
    | none => rw [hpc] at h; simp at h
    | some g1 =>
      rw [hpc] at h
      simp only [Option.some_bind] at h
      calc getCell? g' y x'
          = getCell? g1 y x' :=
            ih g1 g' h y x' (fun e' he' => hy e' (List.mem_cons_of_mem e he'))
        _ = getCell? g y x' :=
          placeChars_other_rows cw gw gh _ e.content g g1 _ hpc y x'
            (hy e (List.mem_cons_self e rest))

/-- C1: for every sequence of tokens, with arbitrary (including negative
or out-of-range) coordinates, the grid quantization of
render_spatial_grid never writes outside the allocated grid and never
faults: every checked cell access succeeds, the computation returns
some grid, and that grid keeps exactly the computed height and width,
so every write landed at a row below the grid height and a column below
the grid width; placements that would fall outside are dropped by the
bounds guards. -/
theorem c1_grid_bounds_safety (cw : Char → Nat) (es : List AltoElement) :
    ∃ g, renderGridCore cw es =
        some (g, gridWidthOf es, gridHeightOf es) ∧
      g.length = gridHeightOf es ∧
      ∀ r ∈ g, r.length = gridWidthOf es := by
  obtain ⟨g, hg, hwf⟩ := renderGridCore_isSome_wf cw es
  exact ⟨g, hg, hwf.1, hwf.2⟩

theorem renderGridCore_single_cells (cw : Char → Nat) (e : AltoElement)
    (c : Char) (hcon : e.content = [c]) (hw : cw c ≤ 300) :
    ∃ g, renderGridCore cw [e] =
        some (g, gridWidthOf [e], gridHeightOf [e]) ∧
      getCell? g 0 0 = some c ∧
      ∀ x, 2 ≤ x → x < gridWidthOf [e] → getCell? g 0 x = some ' ' := by
  have hgw : 300 ≤ gridWidthOf [e] := Nat.le_max_right _ _
  have hgh : 100 ≤ gridHeightOf [e] := Nat.le_max_right _ _
  have hx0 : ratToUsize ((e.hpos - minHpos [e]) * scaleFactor) = 0 := by
    simp [minHpos, ratToUsize]
  have hy0 : ratToUsize ((e.vpos - minVpos [e]) * scaleFactor) = 0 := by
    simp [minVpos, ratToUsize]
  have hwf0 := wellFormed_mkGrid (gridWidthOf [e]) (gridHeightOf [e])
  have hcell0 : getCell? (mkGrid (gridWidthOf [e]) (gridHeightOf [e])) 0 0 =
      some ' ' := getCell?_mkGrid (by omega) (by omega)
  obtain ⟨g1, hset1⟩ := @setCell?_isSome_of_wf
    (mkGrid (gridWidthOf [e]) (gridHeightOf [e]))
    (gridWidthOf [e]) (gridHeightOf [e]) 0 0 hwf0 (by omega) (by omega) c
  have hwf1 := setCell?_wf hset1 hwf0
  have h1self : getCell? g1 0 0 = some c := setCell?_get_self hset1
  have h1other : ∀ x, 1 ≤ x →
      getCell? g1 0 x =
        getCell? (mkGrid (gridWidthOf [e]) (gridHeightOf [e])) 0 x :=
    fun x hx => setCell?_get_other hset1 0 x (Or.inr (by omega))
  have hfit : ¬ (0 + cw c > gridWidthOf [e]) := by omega
  have hfin : ∃ gf, placeStep cw (gridWidthOf [e]) (gridHeightOf [e]) 0
      (mkGrid (gridWidthOf [e]) (gridHeightOf [e])) 0 c = some gf ∧
      getCell? gf 0 0 = some c ∧
      ∀ x, 2 ≤ x → x < gridWidthOf [e] → getCell? gf 0 x = some ' ' := by
    by_cases h2 : cw c = 2 ∧ 0 + 1 < gridWidthOf [e]
    · obtain ⟨g2, hset2⟩ := @setCell?_isSome_of_wf g1
        (gridWidthOf [e]) (gridHeightOf [e]) 0 1 hwf1 (by omega) h2.2
        zwspChar
      refine ⟨g2, ?_, ?_, ?_⟩
      · simp [placeStep, hcell0, hset1, h2, hset2,
          (by omega : 0 < gridWidthOf [e]),
          (by omega : 0 < gridHeightOf [e])]
      · rw [setCell?_get_other hset2 0 0 (Or.inr (by omega))]
        exact h1self
      · intro x h2x hxlt
        rw [setCell?_get_other hset2 0 x (Or.inr (by omega))]
        rw [h1other x (by omega)]
        exact getCell?_mkGrid (by omega) hxlt
    · refine ⟨g1, ?_, h1self, ?_⟩
      · simp [placeStep, hcell0, hset1, h2,
          (by omega : 0 < gridWidthOf [e]),
          (by omega : 0 < gridHeightOf [e])]
      · intro x h2x hxlt
        rw [h1other x (by omega)]
        exact getCell?_mkGrid (by omega) hxlt
  obtain ⟨gf, hstep, hfself, hfother⟩ := hfin
  have hpc : placeChars cw (gridWidthOf [e]) (gridHeightOf [e]) 0
      (mkGrid (gridWidthOf [e]) (gridHeightOf [e])) 0 [c] = some gf := by
    have hfit' : ¬ (gridWidthOf [e] < cw c) := by omega
    simp [placeChars, hfit', hstep]
  have hpa : placeAll cw (gridWidthOf [e]) (gridHeightOf [e])
      (minHpos [e]) (minVpos [e])
      (mkGrid (gridWidthOf [e]) (gridHeightOf [e])) [e] = some gf := by
    simp only [placeAll, Option.bind_eq_bind]
    rw [hx0, hy0]
    have hmin : min 0 (gridHeightOf [e] - 1) = 0 := by omega
    rw [hmin, hcon, hpc]
    rfl
  refine ⟨gf, ?_, hfself, hfother⟩
  simp only [renderGridCore, hpa, Option.map_some']

/-- C4 counterexample: the claim that a cell holding a non-space
character is never overwritten by a later placement fails.  Token X is
placed first at cell (0,1); a CJK character placed later at cell (0,0)
has width 2, and its continuation marker is written unconditionally
into cell (0,1), overwriting the X with a zero-width space.  The same
overwrite happens in the full render pipeline with those two tokens. -/
theorem c4_first_writer_counterexample :
    (placeAll charWidth 300 100 0 0 (mkGrid 300 100)
        [⟨['X'], 7, 0, 0, 0⟩]).bind (fun g => getCell? g 0 1) =
      some 'X' ∧
    (placeAll charWidth 300 100 0 0 (mkGrid 300 100)
        [⟨['X'], 7, 0, 0, 0⟩, ⟨['中'], 0, 0, 0, 0⟩]).bind
        (fun g => getCell? g 0 1) = some zwspChar ∧
    (renderGridCore charWidth
        [⟨['X'], 7, 0, 0, 0⟩, ⟨['中'], 0, 0, 0, 0⟩]).bind
        (fun r => getCell? r.1 0 1) = some zwspChar ∧
    zwspChar ≠ 'X' ∧ zwspChar ≠ ' ' := by
  have hwf0 := wellFormed_mkGrid 300 100
  have hgxA : ratToUsize (((7 : ℚ) - 0) * scaleFactor) = 1 := by
    norm_num [ratToUsize, scaleFactor]
  have hgxB : ratToUsize (((0 : ℚ) - 0) * scaleFactor) = 0 := by
    simp [ratToUsize]
  have hcwX : charWidth 'X' = 1 := by decide
  have hcwC : charWidth '中' = 2 := by decide
  -- placement of the X token at starting column 1
  obtain ⟨gA, hsetA⟩ := @setCell?_isSome_of_wf (mkGrid 300 100)
    300 100 0 1 hwf0 (by omega) (by omega) 'X'
  have hwfA := setCell?_wf hsetA hwf0
  have hA01 : getCell? gA 0 1 = some 'X' := setCell?_get_self hsetA
  have hA00 : getCell? gA 0 0 = some ' ' := by
    rw [setCell?_get_other hsetA 0 0 (Or.inr (by omega))]
    exact getCell?_mkGrid (by omega) (by omega)
  have hstepA : placeStep charWidth 300 100 0 (mkGrid 300 100) 1 'X' =
      some gA := by
    simp [placeStep, getCell?_mkGrid (show 0 < 100 by omega)
      (show 1 < 300 by omega), hsetA, hcwX]
  have hpcA : placeChars charWidth 300 100 0 (mkGrid 300 100) 1 ['X'] =
      some gA := by
    have hfit : ¬ (1 + charWidth 'X' > 300) := by omega
    simp [placeChars, hfit, hstepA]
  have hpaA : placeAll charWidth 300 100 0 0 (mkGrid 300 100)
      [⟨['X'], 7, 0, 0, 0⟩] = some gA := by
    simp only [placeAll, Option.bind_eq_bind]
    rw [show ((⟨['X'], 7, 0, 0, 0⟩ : AltoElement).hpos - 0) = ((7 : ℚ) - 0)
      from rfl]
    rw [show ((⟨['X'], 7, 0, 0, 0⟩ : AltoElement).vpos - 0) = ((0 : ℚ) - 0)
      from rfl]
    rw [hgxA, hgxB]
    have hmin : min 0 (100 - 1) = 0 := by omega
    rw [hmin]
    rw [hpcA]
    rfl
  -- placement of the CJK token at starting column 0, over the grid gA
  obtain ⟨gB, hsetB⟩ := @setCell?_isSome_of_wf gA 300 100 0 0 hwfA
    (by omega) (by omega) '中'
  have hwfB := setCell?_wf hsetB hwfA
  obtain ⟨gC, hsetC⟩ := @setCell?_isSome_of_wf gB 300 100 0 1 hwfB
    (by omega) (by omega) zwspChar
  have hC01 : getCell? gC 0 1 = some zwspChar := setCell?_get_self hsetC
  have hstepB : placeStep charWidth 300 100 0 gA 0 '中' = some gC := by
    simp [placeStep, hA00, hsetB, hcwC, hsetC]
  have hpcB : placeChars charWidth 300 100 0 gA 0 ['中'] = some gC := by
    have hfit : ¬ (300 < charWidth '中') := by simp [hcwC]
    simp [placeChars, hfit, hstepB]
  have hpaAB : placeAll charWidth 300 100 0 0 (mkGrid 300 100)
      [⟨['X'], 7, 0, 0, 0⟩, ⟨['中'], 0, 0, 0, 0⟩] = some gC := by
    simp only [placeAll, Option.bind_eq_bind]
    rw [show ((⟨['X'], 7, 0, 0, 0⟩ : AltoElement).hpos - 0) = ((7 : ℚ) - 0)
      from rfl]
    rw [show ((⟨['X'], 7, 0, 0, 0⟩ : AltoElement).vpos - 0) = ((0 : ℚ) - 0)
      from rfl]
    rw [hgxA, hgxB]
    have hmin : min 0 (100 - 1) = 0 := by omega
    rw [hmin]
    rw [hpcA]
    simp only [Option.some_bind]
    rw [hpcB]
    rfl
  -- the full pipeline dimensions and minima for the two tokens
  have hminx : minHpos [⟨['X'], 7, 0, 0, 0⟩, ⟨['中'], 0, 0, 0, 0⟩] = 0 := by
    simp [minHpos, min_def]
  have hminy : minVpos [⟨['X'], 7, 0, 0, 0⟩, ⟨['中'], 0, 0, 0, 0⟩] = 0 := by
    simp [minVpos, min_def]
  have hgw : gridWidthOf [⟨['X'], 7, 0, 0, 0⟩, ⟨['中'], 0, 0, 0, 0⟩] =
      300 := by
    norm_num [gridWidthOf, maxHpos, minHpos, ratToUsize, scaleFactor,
      min_def, max_def]
  have hgh : gridHeightOf [⟨['X'], 7, 0, 0, 0⟩, ⟨['中'], 0, 0, 0, 0⟩] =
      100 := by
    norm_num [gridHeightOf, maxVpos, minVpos, ratToUsize, scaleFactor,
      min_def, max_def]
  have hrender : renderGridCore charWidth
      [⟨['X'], 7, 0, 0, 0⟩, ⟨['中'], 0, 0, 0, 0⟩] = some (gC, 300, 100) := by
    simp only [renderGridCore, hgw, hgh, hminx, hminy, hpaAB,
      Option.map_some']
  refine ⟨?_, ?_, ?_, by decide, by decide⟩
  · rw [hpaA]
    simpa using hA01
  · rw [hpaAB]
    simpa using hC01
  · rw [hrender]
    simpa using hC01

/-- C4 amended: during grid placement a cell holding a non-space
character is never replaced by a later primary character write (the
empty-cell check makes the first writer win); the only later write
that can change it is the zero-width-space continuation marker
accompanying a wide character placed in the cell directly to its left.
Hence after the whole placement pass such a cell holds either the first
non-space character written to it or the continuation marker. -/
theorem c4_first_writer_amended (cw : Char → Nat) (gw gh : Nat)
    (mnx mny : ℚ) (es : List AltoElement) (g g' : Grid) (y x : Nat)
    (c : Char) (h : placeAll cw gw gh mnx mny g es = some g')
    (hc : getCell? g y x = some c) (hns : c ≠ ' ') :
    getCell? g' y x = some c ∨ getCell? g' y x = some zwspChar :=
  placeAll_nonspace cw gw gh mnx mny es g g' h y x c hc hns

theorem c4_first_writer_amended_witness :
    placeAll charWidth 2 1 0 0 [[' ', 'X']] [⟨['中'], 0, 0, 0, 0⟩] =
      some [['中', zwspChar]] ∧
    (getCell? [['中', zwspChar]] 0 1 = some 'X' ∨
      getCell? [['中', zwspChar]] 0 1 = some zwspChar) := by
  have hgx : ratToUsize (((0 : ℚ) - 0) * scaleFactor) = 0 := by
    simp [ratToUsize]
  have hpa : placeAll charWidth 2 1 0 0 [[' ', 'X']]
      [⟨['中'], 0, 0, 0, 0⟩] = some [['中', zwspChar]] := by
    simp only [placeAll, Option.bind_eq_bind]
    rw [show ((⟨['中'], 0, 0, 0, 0⟩ : AltoElement).hpos - 0) = ((0 : ℚ) - 0)
      from rfl]
    rw [show ((⟨['中'], 0, 0, 0, 0⟩ : AltoElement).vpos - 0) = ((0 : ℚ) - 0)
      from rfl]
    rw [hgx]
    decide
  exact ⟨hpa,
    c4_first_writer_amended charWidth 2 1 0 0 [⟨['中'], 0, 0, 0, 0⟩]
      [[' ', 'X']] [['中', zwspChar]] 0 1 'X' hpa (by decide) (by decide)⟩

/-- C5 counterexample: the claimed starting-cell formula
col = clamp(floor(h_pos / char_width), 0, width-1) fails on the code.
A single token X at h_pos 1000000 — far beyond grid_width times the
character width — is placed at column 0 of row 0, because the code
translates coordinates by the content minimum before scaling; the
claimed formula would put it at the last column 299 of the 300-column
grid, which instead still holds a space. -/
theorem c5_quantization_counterexample :
    (renderGridCore charWidth [⟨['X'], 1000000, 0, 0, 0⟩]).bind
        (fun r => getCell? r.1 0 0) = some 'X' ∧
    (renderGridCore charWidth [⟨['X'], 1000000, 0, 0, 0⟩]).bind
        (fun r => getCell? r.1 0 299) = some ' ' ∧
    gridWidthOf [⟨['X'], 1000000, 0, 0, 0⟩] = 300 ∧
    gridHeightOf [⟨['X'], 1000000, 0, 0, 0⟩] = 100 := by
  have hgw : gridWidthOf [⟨['X'], 1000000, 0, 0, 0⟩] = 300 := by
    norm_num [gridWidthOf, maxHpos, minHpos, ratToUsize, scaleFactor,
      max_def]
  have hgh : gridHeightOf [⟨['X'], 1000000, 0, 0, 0⟩] = 100 := by
    norm_num [gridHeightOf, maxVpos, minVpos, ratToUsize, scaleFactor,
      max_def]
  obtain ⟨g, hg, h00, hother⟩ := renderGridCore_single_cells charWidth
    ⟨['X'], 1000000, 0, 0, 0⟩ 'X' rfl (by decide)
  refine ⟨?_, ?_, hgw, hgh⟩
  · rw [hg]
    simpa using h00
  · rw [hg]
    simp only [Option.bind_eq_bind, Option.some_bind]
    exact hother 299 (by omega) (by omega)

/-- C5 amended: the starting cell of a token is
col = floor((h_pos - min_x) * 0.15) and
row = floor((v_pos - min_y) * 0.15), where the usize cast saturates
negatives to zero, min_x and min_y are the content minima, the column
gets no upper clamp, and the row is clamped to height-1 only at
placement time.  Consequently a single token is placed starting at cell
(0,0) whatever its h_pos: an h_pos far beyond grid_width times the
character width yields column 0, not the clamped last column, and the
token is not dropped. -/
theorem c5_quantization_amended (cw : Char → Nat) (e : AltoElement)
    (c : Char) (hcon : e.content = [c]) (hw : cw c ≤ 300) :
    (renderGridCore cw [e]).bind (fun r => getCell? r.1 0 0) = some c := by
  obtain ⟨g, hg, h00, _⟩ := renderGridCore_single_cells cw e c hcon hw
  rw [hg]
  simpa using h00

theorem c5_quantization_amended_witness :
    (⟨['X'], 1000000, 0, 0, 0⟩ : AltoElement).content = ['X'] ∧
    charWidth 'X' ≤ 300 ∧
    (renderGridCore charWidth [⟨['X'], 1000000, 0, 0, 0⟩]).bind
        (fun r => getCell? r.1 0 0) = some 'X' :=
  ⟨rfl, by decide,
   c5_quantization_amended charWidth ⟨['X'], 1000000, 0, 0, 0⟩ 'X' rfl
     (by decide)⟩

/-- C6 counterexample: the claimed wrap-to-next-row overflow policy
fails on the code.  A single token of 301 characters starting at
column 0 of a 300-column grid exceeds the column bound when its final
character b reaches column 300; the row bound is not exceeded (row 1 is
inside the 100-row grid), so by the claim the b should wrap to the next
row at the token's starting column, cell (1,0) — but the code breaks
out of the loop and drops it, leaving cell (1,0) a space. -/
theorem c6_overflow_counterexample :
    (renderGridCore charWidth
        [⟨List.replicate 300 'a' ++ ['b'], 0, 0, 0, 0⟩]).bind
        (fun r => getCell? r.1 1 0) = some ' ' ∧
    300 + charWidth 'b' >
      gridWidthOf [⟨List.replicate 300 'a' ++ ['b'], 0, 0, 0, 0⟩] ∧
    1 < gridHeightOf [⟨List.replicate 300 'a' ++ ['b'], 0, 0, 0, 0⟩] := by
  have hgw : gridWidthOf [⟨List.replicate 300 'a' ++ ['b'], 0, 0, 0, 0⟩] =
      300 := by
    norm_num [gridWidthOf, maxHpos, minHpos, ratToUsize, scaleFactor,
      max_def]
  have hgh : gridHeightOf
      [⟨List.replicate 300 'a' ++ ['b'], 0, 0, 0, 0⟩] = 100 := by
    norm_num [gridHeightOf, maxVpos, minVpos, ratToUsize, scaleFactor,
      max_def]
  have hcwb : charWidth 'b' = 1 := by decide
  refine ⟨?_, by omega, by omega⟩
  obtain ⟨g, hg, hwf⟩ := renderGridCore_isSome_wf charWidth
    [⟨List.replicate 300 'a' ++ ['b'], 0, 0, 0, 0⟩]
  have hpa : placeAll charWidth
      (gridWidthOf [⟨List.replicate 300 'a' ++ ['b'], 0, 0, 0, 0⟩])
      (gridHeightOf [⟨List.replicate 300 'a' ++ ['b'], 0, 0, 0, 0⟩])
      (minHpos [⟨List.replicate 300 'a' ++ ['b'], 0, 0, 0, 0⟩])
      (minVpos [⟨List.replicate 300 'a' ++ ['b'], 0, 0, 0, 0⟩])
      (mkGrid
        (gridWidthOf [⟨List.replicate 300 'a' ++ ['b'], 0, 0, 0, 0⟩])
        (gridHeightOf [⟨List.replicate 300 'a' ++ ['b'], 0, 0, 0, 0⟩]))
      [⟨List.replicate 300 'a' ++ ['b'], 0, 0, 0, 0⟩] = some g := by
    have hthis := hg
    unfold renderGridCore at hthis
    obtain ⟨a, ha, hfa⟩ := Option.map_eq_some'.mp hthis
    obtain rfl : a = g := congrArg Prod.fst hfa
    exact ha
  have hrow : getCell? g 1 0 =
      getCell? (mkGrid
        (gridWidthOf [⟨List.replicate 300 'a' ++ ['b'], 0, 0, 0, 0⟩])
        (gridHeightOf [⟨List.replicate 300 'a' ++ ['b'], 0, 0, 0, 0⟩]))
        1 0 := by
    refine placeAll_other_rows charWidth _ _ _ _ _ _ g hpa 1 0 ?_
    intro e he
    rcases List.mem_singleton.mp he with rfl
    have hv : ratToUsize
        (((⟨List.replicate 300 'a' ++ ['b'], 0, 0, 0, 0⟩ :
          AltoElement).vpos -
          minVpos [⟨List.replicate 300 'a' ++ ['b'], 0, 0, 0, 0⟩]) *
          scaleFactor) = 0 := by
      simp [minVpos, ratToUsize]
    rw [hv, hgh]
    omega
  rw [hg]
  simp only [Option.bind_eq_bind, Option.some_bind]
  rw [hrow]
  exact getCell?_mkGrid (by omega) (by omega)

/-- C6 amended: when placing a character would exceed the grid's column
bound, the placement loop breaks: that character and all remaining
characters of the token are dropped and the accumulated grid is
returned unchanged (non-fatal, the computation still succeeds); nothing
is ever wrapped to a following row, since placement for one token only
writes its single clamped row. -/
theorem c6_overflow_amended (cw : Char → Nat) (gw gh fy : Nat) (g : Grid)
    (x : Nat) (ch : Char) (rest : List Char) (hover : x + cw ch > gw) :
    placeChars cw gw gh fy g x (ch :: rest) = some g := by
  simp [placeChars, hover]

theorem c6_overflow_amended_witness :
    2 + charWidth 'a' > 2 ∧
    placeChars charWidth 2 1 0 [[' ', ' ']] 2 ['a', 'b'] =
      some [[' ', ' ']] :=
  ⟨by decide,
   c6_overflow_amended charWidth 2 1 0 [[' ', ' ']] 2 'a' ['b']
     (by decide)⟩
theorem getCell?_mem {g : Grid} {y x : Nat} {c : Char}
    (h : getCell? g y x = some c) : ∃ r ∈ g, c ∈ r := by
  unfold getCell? at h
  cases hg : g[y]? with
  | none => rw [hg] at h; simp at h
  | some row =>
    rw [hg] at h
    obtain ⟨hylt, hget⟩ := List.getElem?_eq_some_iff.mp hg
    obtain ⟨hxlt, hx⟩ := List.getElem?_eq_some_iff.mp h
    exact ⟨row, hget ▸ List.getElem_mem hylt, hx ▸ List.getElem_mem hxlt⟩

theorem rtrimChars_pref (cs : List Char) : rtrimChars cs <+: cs := by
  have h := List.dropWhile_suffix (l := cs.reverse) rustIsWhitespace
  have h2 : (cs.reverse.dropWhile rustIsWhitespace).reverse <+:
      cs.reverse.reverse := List.reverse_prefix.mpr h
  simpa [rtrimChars] using h2

theorem rtrimChars_length_le (cs : List Char) :
    (rtrimChars cs).length ≤ cs.length :=
  (rtrimChars_pref cs).length_le

theorem rtrimChars_not_mem {cs : List Char} {c : Char} (h : c ∉ cs) :
    c ∉ rtrimChars cs := fun hmem =>
  h ((rtrimChars_pref cs).sublist.mem hmem)

theorem vpRow_spec (g : Grid) (gw gh gy offX : Nat)
    (h1 : g.length = gh) (h2 : ∀ r ∈ g, r.length = gw) (hy : gy < gh) :
    ∀ (n sx : Nat), ∃ cs, vpRow g gw gy offX sx n = some cs ∧
      cs.length = n ∧ ∀ c ∈ cs, c = ' ' ∨ ∃ r ∈ g, c ∈ r := by
  intro n
  induction n with
  | zero => exact fun sx => ⟨[], rfl, rfl, by simp⟩
  | succ m ih =>
    intro sx
    obtain ⟨cs, hcs, hlen, hmem⟩ := ih (sx + 1)
    by_cases hgx : sx + offX < gw
    · obtain ⟨c, hc⟩ := getCell?_isSome_of_wf ⟨h1, h2⟩ hy hgx
      refine ⟨c :: cs, ?_, by simp [hlen], ?_⟩
      · simp [vpRow, hgx, hc, hcs]
      · intro c' hc'
        rcases List.mem_cons.mp hc' with rfl | hc'
        · exact Or.inr (getCell?_mem hc)
        · exact hmem c' hc'
    · refine ⟨' ' :: cs, ?_, by simp [hlen], ?_⟩
      · simp [vpRow, hgx, hcs]
      · intro c' hc'
        rcases List.mem_cons.mp hc' with rfl | hc'
        · exact Or.inl rfl
        · exact hmem c' hc'

theorem vpLines_spec (g : Grid) (gw gh offX offY vw : Nat)
    (h1 : g.length = gh) (h2 : ∀ r ∈ g, r.length = gw) :
    ∀ (n sy : Nat), ∃ ls,
      vpLines g gw gh offX offY vw sy n = some ls ∧
      ls.length = n ∧
      ∀ l ∈ ls, l.length ≤ vw ∧
        ∀ c ∈ l, c = ' ' ∨ ∃ r ∈ g, c ∈ r := by
  intro n
  induction n with
  | zero => exact fun sy => ⟨[], rfl, rfl, by simp⟩
  | succ m ih =>
    intro sy
    obtain ⟨ls, hls, hlen, hprop⟩ := ih (sy + 1)
    by_cases hgy : sy + offY < gh
    · obtain ⟨cs, hcs, hcslen, hcsmem⟩ := vpRow_spec g gw gh (sy + offY)
        offX h1 h2 hgy vw 0
      refine ⟨rtrimChars cs :: ls, ?_, by simp [hlen], ?_⟩
      · simp [vpLines, hgy, hcs, hls]
      · intro l hl
        rcases List.mem_cons.mp hl with rfl | hl
        · refine ⟨hcslen ▸ rtrimChars_length_le cs, ?_⟩
          intro c hc
          exact hcsmem c ((rtrimChars_pref cs).sublist.mem hc)
        · exact hprop l hl
    · refine ⟨[] :: ls, ?_, by simp [hlen], ?_⟩
      · simp [vpLines, hgy, hls]
      · intro l hl
        rcases List.mem_cons.mp hl with rfl | hl
        · simp
        · exact hprop l hl

/-- C2: for every grid matching its stored dimensions and every
viewport offsets, including offsets far beyond the grid, extracting the
viewport text never performs an out-of-bounds access and never panics:
every checked cell read succeeds, out-of-range rows and columns render
as blanks, and each rendered row is right-trimmed, as the definition of
getViewportText shows. -/
theorem c2_viewport_safety (g : Grid) (gw gh termW termH offX offY : Nat)
    (h1 : g.length = gh) (h2 : ∀ r ∈ g, r.length = gw) :
    (getViewportText g gw gh termW termH offX offY).isSome := by
  obtain ⟨ls, hls, _, _⟩ := vpLines_spec g gw gh offX offY
    (min termW 120) h1 h2 (min (termH - 2) 50) 0
  simp [getViewportText, hls]

theorem c2_viewport_safety_witness :
    ([['a']] : Grid).length = 1 ∧
    (getViewportText [['a']] 1 1 80 24 1000000 1000000).isSome = true :=
  ⟨rfl, c2_viewport_safety [['a']] 1 1 80 24 1000000 1000000 rfl
    (by decide)⟩

/-- C7: for an empty token store the pipeline proceeds without error
and produces empty output: rebuild_text_buffer sets the text buffer to
the empty string and returns at once, leaving the content grid, the
grid dimensions and the viewport offsets untouched, and
render_spatial_grid on empty elements likewise returns the empty string
without touching the state. -/
theorem c7_empty_token_store (cw : Char → Nat) (termW termH : Nat)
    (st : EditorGridState) :
    rebuildTextBuffer cw termW termH [] st =
      some { st with textBuffer := [] } ∧
    renderSpatialGrid cw termW termH [] st = some ([], st) := by
  constructor
  · simp [rebuildTextBuffer]
  · simp [renderSpatialGrid]

theorem splitNl_ne_nil (cs : List Char) : splitNlAll cs ≠ [] := by
  cases cs with
  | nil => simp [splitNlAll]
  | cons c cs =>
    by_cases hc : c = '\n'
    · simp [splitNlAll, hc]
    · simp only [splitNlAll, hc, if_false]
      cases splitNlAll cs <;> simp

theorem splitNl_length (cs : List Char) :
    (splitNlAll cs).length = cs.count '\n' + 1 := by
  induction cs with
  | nil => simp [splitNlAll]
  | cons c cs ih =>
    by_cases hc : c = '\n'
    · subst hc
      simp [splitNlAll, ih, List.count_cons]
    · have hne := splitNl_ne_nil cs
      obtain ⟨r, rs, hr⟩ := List.exists_cons_of_ne_nil hne
      simp [splitNlAll, hc, hr, List.count_cons]
      rw [hr] at ih
      simpa using ih

theorem splitNl_noNl {l : List Char} (h : ('\n' : Char) ∉ l) :
    splitNlAll l = [l] := by
  induction l with
  | nil => simp [splitNlAll]
  | cons c cs ih =>
    have hc : c ≠ '\n' := fun hc => h (hc ▸ List.mem_cons_self c cs)
    have hcs : ('\n' : Char) ∉ cs := fun hm => h (List.mem_cons_of_mem c hm)
    simp [splitNlAll, hc, ih hcs]

theorem splitNl_after_line {l : List Char} (h : ('\n' : Char) ∉ l)
    (cs : List Char) : splitNlAll (l ++ '\n' :: cs) = l :: splitNlAll cs := by
  induction l with
  | nil => simp [splitNlAll]
  | cons c l ih =>
    have hc : c ≠ '\n' := fun hc => h (hc ▸ List.mem_cons_self c l)
    have hl : ('\n' : Char) ∉ l := fun hm => h (List.mem_cons_of_mem c hm)
    simp [splitNlAll, hc, ih hl]

theorem splitNl_flatten (ls : List (List Char))
    (h : ∀ l ∈ ls, ('\n' : Char) ∉ l) :
    splitNlAll ((ls.map (fun l => l ++ ['\n'])).flatten) = ls ++ [[]] := by
  induction ls with
  | nil => simp [splitNlAll]
  | cons l ls ih =>
    have hl : ('\n' : Char) ∉ l := h l (List.mem_cons_self l ls)
    have hls : ∀ l' ∈ ls, ('\n' : Char) ∉ l' :=
      fun l' hl' => h l' (List.mem_cons_of_mem l hl')
    have heq : ((l :: ls).map (fun l => l ++ ['\n'])).flatten =
        l ++ '\n' :: (ls.map (fun l => l ++ ['\n'])).flatten := by
      simp
    rw [heq, splitNl_after_line hl, ih hls]
    rfl

theorem splitNl_append (u v : List Char) :
    splitNlAll (u ++ v) =
      (splitNlAll u).dropLast ++
        ((splitNlAll u).getLastD [] ++ (splitNlAll v).headD []) ::
          (splitNlAll v).tail := by
  induction u with
  | nil =>
    obtain ⟨h, t, hv⟩ := List.exists_cons_of_ne_nil (splitNl_ne_nil v)
    simp [splitNlAll, hv]
  | cons c cs ih =>
    by_cases hc : c = '\n'
    · subst hc
      have hne := splitNl_ne_nil cs
      obtain ⟨r, rs, hr⟩ := List.exists_cons_of_ne_nil hne
      have hL : splitNlAll (('\n' :: cs) ++ v) =
          [] :: splitNlAll (cs ++ v) := by
        simp [splitNlAll]
      have hR : splitNlAll ('\n' :: cs) = [] :: splitNlAll cs := by
        simp [splitNlAll]
      rw [hL, hR, ih, hr]
      simp [List.dropLast_cons_of_ne_nil, List.getLastD_cons]
    · have hne := splitNl_ne_nil cs
      obtain ⟨r, rs, hr⟩ := List.exists_cons_of_ne_nil hne
      have hne2 := splitNl_ne_nil (cs ++ v)
      obtain ⟨r2, rs2, hr2⟩ := List.exists_cons_of_ne_nil hne2
      have hL : splitNlAll ((c :: cs) ++ v) = (c :: r2) :: rs2 := by
        simp only [List.cons_append, splitNlAll, hc, if_false,
          List.append_eq, hr2]
      have hR : splitNlAll (c :: cs) = (c :: r) :: rs := by
        simp only [splitNlAll, hc, if_false, hr]
      rw [hL, hR]
      have ih' := ih
      rw [hr2, hr] at ih'
      cases rs with
      | nil =>
        simp only [List.dropLast_single, List.nil_append,
          List.getLastD_cons, List.getLastD_nil] at ih' ⊢
        cases ih'
        simp
      | cons q qs =>
        simp only [List.dropLast_cons_of_ne_nil (List.cons_ne_nil q qs),
          List.getLastD_cons] at ih' ⊢
        rw [List.cons_append] at ih'
        cases ih'
        simp

theorem splitNl_mono (u d : List Char) :
    ∀ p ∈ splitNlAll u, ∃ q ∈ splitNlAll (u ++ d), p.length ≤ q.length := by
  intro p hp
  rw [splitNl_append u d]
  have hne := splitNl_ne_nil u
  have hsplit : (splitNlAll u).dropLast ++ [(splitNlAll u).getLast hne] =
      splitNlAll u := List.dropLast_append_getLast hne
  have hp' : p ∈ (splitNlAll u).dropLast ++
      [(splitNlAll u).getLast hne] := by
    rw [hsplit]
    exact hp
  rcases List.mem_append.mp hp' with hmem | hmem
  · exact ⟨p, List.mem_append_left _ hmem, le_refl _⟩
  · rcases List.mem_singleton.mp hmem with rfl
    refine ⟨(splitNlAll u).getLastD [] ++ (splitNlAll (d)).headD [],
      List.mem_append_right _ (List.mem_cons_self _ _), ?_⟩
    rw [List.getLastD_eq_getLast?, List.getLast?_eq_getLast _ hne]
    simp

theorem flatten_ends_nl (ls : List (List Char)) (h : ls ≠ []) :
    ∃ b, (ls.map (fun l => l ++ ['\n'])).flatten = b ++ ['\n'] := by
  induction ls with
  | nil => exact absurd rfl h
  | cons l ls ih =>
    cases ls with
    | nil => exact ⟨l, by simp⟩
    | cons l2 ls2 =>
      obtain ⟨b, hb⟩ := ih (List.cons_ne_nil l2 ls2)
      refine ⟨l ++ '\n' :: b, ?_⟩
      simp only [List.map_cons, List.flatten_cons] at hb ⊢
      rw [hb]
      simp

theorem rtrimChars_append_nl (b : List Char) :
    rtrimChars (b ++ ['\n']) = rtrimChars b := by
  unfold rtrimChars
  rw [List.reverse_append]
  simp [List.dropWhile_cons, show rustIsWhitespace '\n' = true from rfl]

theorem foldr_max_le (L : List Nat) (b : Nat) (h : ∀ n ∈ L, n ≤ b) :
    L.foldr max 0 ≤ b := by
  induction L with
  | nil => simp
  | cons n L ih =>
    simp only [List.foldr_cons]
    have h1 := h n (List.mem_cons_self n L)
    have h2 := ih (fun m hm => h m (List.mem_cons_of_mem n hm))
    omega

/-- C8: the visible window is hard-capped: for every grid matching its
stored dimensions whose cells hold no newline characters and every
terminal size with at least two rows, the rendered viewport text spans
at most min(terminal_width, 120) columns per line and at most
min(terminal_height - 2, 50) rows, however large the content grid or
the terminal is. -/
theorem c8_viewport_caps (g : Grid) (gw gh termW termH offX offY : Nat)
    (t : List Char) (h1 : g.length = gh) (h2 : ∀ r ∈ g, r.length = gw)
    (hnl : ∀ r ∈ g, ('\n' : Char) ∉ r) (hterm : 2 ≤ termH)
    (ht : getViewportText g gw gh termW termH offX offY = some t) :
    lineCount t ≤ min (termH - 2) 50 ∧ maxLineLen t ≤ min termW 120 := by
  obtain ⟨ls, hls, hlen, hprop⟩ := vpLines_spec g gw gh offX offY
    (min termW 120) h1 h2 (min (termH - 2) 50) 0
  have ht' : t =
      rtrimChars ((ls.map (fun l => l ++ ['\n'])).flatten) := by
    rw [getViewportText.eq_def] at ht
    simp only [hls, Option.bind_eq_bind, Option.some_bind] at ht
    exact (Option.some_inj.mp ht).symm
  have hlsnl : ∀ l ∈ ls, ('\n' : Char) ∉ l := by
    intro l hl hc
    rcases (hprop l hl).2 '\n' hc with hsp | ⟨r, hr, hcr⟩
    · exact absurd hsp (by decide)
    · exact hnl r hr hcr
  have hlsw : ∀ l ∈ ls, l.length ≤ min termW 120 :=
    fun l hl => (hprop l hl).1
  have hsplitblob : splitNlAll ((ls.map (fun l => l ++ ['\n'])).flatten) =
      ls ++ [[]] := splitNl_flatten ls hlsnl
  constructor
  · -- row cap
    cases hcase : ls with
    | nil =>
      rw [ht', hcase]
      simp [rtrimChars, lineCount]
    | cons l0 ls0 =>
      obtain ⟨b, hb⟩ := flatten_ends_nl ls (by rw [hcase]; simp)
      have htb : t = rtrimChars b := by rw [ht', hb, rtrimChars_append_nl]
      have hcountblob :
          ((ls.map (fun l => l ++ ['\n'])).flatten).count '\n' =
            ls.length := by
        have hA := splitNl_length ((ls.map (fun l => l ++ ['\n'])).flatten)
        rw [hsplitblob] at hA
        simp at hA
        omega
      have hcountb : b.count '\n' + 1 = ls.length := by
        rw [hb] at hcountblob
        rw [List.count_append] at hcountblob
        simpa using hcountblob
      have hcountt : t.count '\n' ≤ b.count '\n' :=
        htb ▸ ((rtrimChars_pref b).sublist.count_le '\n')
      rw [lineCount]
      split
      · omega
      · omega
  · -- column cap
    have hpref : t <+: (ls.map (fun l => l ++ ['\n'])).flatten :=
      ht' ▸ rtrimChars_pref _
    obtain ⟨d, hd⟩ := hpref
    refine foldr_max_le _ _ ?_
    intro n hn
    obtain ⟨p, hp, rfl⟩ := List.mem_map.mp hn
    obtain ⟨q, hq, hpq⟩ := splitNl_mono t d p hp
    rw [hd, hsplitblob] at hq
    rcases List.mem_append.mp hq with hq | hq
    · exact le_trans hpq (hlsw q hq)
    · rcases List.mem_singleton.mp hq with rfl
      have hp0 : p.length ≤ 0 := by simpa using hpq
      omega

theorem c8_viewport_caps_witness :
    getViewportText [['a']] 1 1 2 3 0 0 = some ['a'] ∧
    lineCount ['a'] ≤ min (3 - 2) 50 ∧ maxLineLen ['a'] ≤ min 2 120 :=
  ⟨by decide,
   (c8_viewport_caps [['a']] 1 1 2 3 0 0 ['a'] rfl (by decide) (by decide)
     (by decide) (by decide)).1,
   (c8_viewport_caps [['a']] 1 1 2 3 0 0 ['a'] rfl (by decide) (by decide)
     (by decide) (by decide)).2⟩

theorem utf8Length_append (a b : List Char) :
    utf8Length (a ++ b) = utf8Length a + utf8Length b := by
  simp [utf8Length]

theorem utf8Length_take_le (l : List Char) (k : Nat) :
    utf8Length (l.take k) ≤ utf8Length l := by
  conv_rhs => rw [← List.take_append_drop k l]
  rw [utf8Length_append]
  omega

theorem scpLoop_boundary (x : Nat) :
    ∀ (l : List Char) (i cnt bp : Nat), scpLoop x l i cnt = some bp →
      ∃ k ≤ l.length, bp = i + utf8Length (l.take k) := by
  intro l
  induction l with
  | nil => intro i cnt bp h; simp [scpLoop] at h
  | cons ch rest ih =>
    intro i cnt bp h
    unfold scpLoop at h
    by_cases hx : x ≤ cnt
    · rw [if_pos hx] at h
      refine ⟨0, Nat.zero_le _, ?_⟩
      cases h
      simp [utf8Length]
    · rw [if_neg hx] at h
      obtain ⟨k, hk, hbp⟩ := ih (i + ch.utf8Size) (cnt + 1) bp h
      refine ⟨k + 1, by simpa using hk, ?_⟩
      rw [List.take_succ_cons]
      simp only [utf8Length, List.map_cons, List.sum_cons]
      rw [hbp, utf8Length]
      omega

theorem safeCursorPos_boundary (line : List Char) (x : Nat) :
    ∃ k ≤ line.length, safeCursorPos line x = utf8Length (line.take k) := by
  unfold safeCursorPos
  cases h : scpLoop x line 0 0 with
  | some bp =>
    obtain ⟨k, hk, hbp⟩ := scpLoop_boundary x line 0 0 bp h
    refine ⟨k, hk, ?_⟩
    show bp = utf8Length (line.take k)
    omega
  | none =>
    by_cases hlen : line.length < x
    · rw [if_pos hlen]
      exact ⟨line.length, le_refl _, by rw [List.take_length]⟩
    · rw [if_neg hlen]
      exact ⟨0, Nat.zero_le _, by simp [utf8Length]⟩

theorem byteInsert?_boundary (c : Char) :
    ∀ (l : List Char) (k : Nat), k ≤ l.length →
      (byteInsert? c l (utf8Length (l.take k))).isSome := by
  intro l
  induction l with
  | nil =>
    intro k _
    simp [byteInsert?, utf8Length]
  | cons a l ih =>
    intro k hk
    cases k with
    | zero => simp [byteInsert?, utf8Length]
    | succ m =>
      have heq : utf8Length ((a :: l).take (m + 1)) =
          a.utf8Size + utf8Length (l.take m) := by
        rw [List.take_succ_cons]
        simp [utf8Length]
      rw [heq]
      obtain ⟨p, hp⟩ : ∃ p, a.utf8Size + utf8Length (l.take m) = p + 1 :=
        ⟨a.utf8Size + utf8Length (l.take m) - 1, by
          have := Char.utf8Size_pos a
          omega⟩
      rw [hp]
      have hlt : ¬ (p + 1 < a.utf8Size) := by omega
      have hsub : p + 1 - a.utf8Size = utf8Length (l.take m) := by omega
      have hih := ih m (by simpa using hk)
      simp only [byteInsert?, hlt, if_false, hsub]
      simpa using hih

theorem byteSplitOff?_boundary :
    ∀ (l : List Char) (k : Nat), k ≤ l.length →
      (byteSplitOff? l (utf8Length (l.take k))).isSome := by
  intro l
  induction l with
  | nil =>
    intro k _
    simp [byteSplitOff?, utf8Length]
  | cons a l ih =>
    intro k hk
    cases k with
    | zero => simp [byteSplitOff?, utf8Length]
    | succ m =>
      have heq : utf8Length ((a :: l).take (m + 1)) =
          a.utf8Size + utf8Length (l.take m) := by
        rw [List.take_succ_cons]
        simp [utf8Length]
      rw [heq]
      obtain ⟨p, hp⟩ : ∃ p, a.utf8Size + utf8Length (l.take m) = p + 1 :=
        ⟨a.utf8Size + utf8Length (l.take m) - 1, by
          have := Char.utf8Size_pos a
          omega⟩
      rw [hp]
      have hlt : ¬ (p + 1 < a.utf8Size) := by omega
      have hsub : p + 1 - a.utf8Size = utf8Length (l.take m) := by omega
      have hih := ih m (by simpa using hk)
      simp only [byteSplitOff?, hlt, if_false, hsub]
      simpa using hih

/-- C9: for every text buffer, cursor position (including rows past the
last line and columns past the end of the line) and character,
including buffers whose lines hold multi-byte characters, the insertion
of insert_char_at_cursor never faults: missing lines are appended as
empty lines, the target line is padded with spaces up to the cursor
column, and the computed insertion byte index always lies on a UTF-8
character boundary within the line, so the byte-indexed insert, split
and line-vector operations all succeed. -/
theorem c9_insert_safety (buf : List Char) (cx cy : Nat) (c : Char) :
    (insertCharAtCursor buf cx cy c).isSome := by
  unfold insertCharAtCursor
  have hlen1 : cy < (rustLines buf ++
      List.replicate (cy + 1 - (rustLines buf).length) []).length := by
    rw [List.length_append, List.length_replicate]
    omega
  have hget := List.getElem?_eq_getElem hlen1
  simp only [Option.bind_eq_bind]
  rw [hget]
  simp only [Option.some_bind]
  obtain ⟨k, hk, hsp⟩ := safeCursorPos_boundary
    ((rustLines buf ++
      List.replicate (cy + 1 - (rustLines buf).length) [])[cy] ++
      List.replicate (cx -
        (rustLines buf ++
          List.replicate (cy + 1 - (rustLines buf).length) [])[cy].length)
        ' ') cx
  have hsple : safeCursorPos
      ((rustLines buf ++
        List.replicate (cy + 1 - (rustLines buf).length) [])[cy] ++
        List.replicate (cx -
          (rustLines buf ++
            List.replicate (cy + 1 - (rustLines buf).length) [])[cy].length)
          ' ') cx ≤
      utf8Length
        ((rustLines buf ++
          List.replicate (cy + 1 - (rustLines buf).length) [])[cy] ++
          List.replicate (cx -
            (rustLines buf ++
              List.replicate (cy + 1 - (rustLines buf).length) [])[cy].length)
            ' ') := by
    rw [hsp]
    exact utf8Length_take_le _ _
  by_cases hc : c = '\n'
  · rw [if_pos hc]
    by_cases hlt : safeCursorPos
        ((rustLines buf ++
          List.replicate (cy + 1 - (rustLines buf).length) [])[cy] ++
          List.replicate (cx -
            (rustLines buf ++
              List.replicate (cy + 1 - (rustLines buf).length) [])[cy].length)
            ' ') cx <
        utf8Length
          ((rustLines buf ++
            List.replicate (cy + 1 - (rustLines buf).length) [])[cy] ++
            List.replicate (cx -
              (rustLines buf ++
                List.replicate
                  (cy + 1 - (rustLines buf).length) [])[cy].length)
              ' ')
    · rw [if_pos hlt]
      rw [hsp]
      obtain ⟨pr, hpr⟩ := Option.isSome_iff_exists.mp
        (byteSplitOff?_boundary _ k hk)
      rw [hpr]
      simp only [Option.some_bind]
      simp only [vecInsert?, List.length_set, List.length_append,
        List.length_replicate]
      split
      · simp
      · omega
    · rw [if_neg hlt]
      simp only [Option.pure_def, Option.some_bind]
      simp only [vecInsert?, List.length_set, List.length_append,
        List.length_replicate]
      split
      · simp
      · omega
  · rw [if_neg hc]
    have hmin : min (safeCursorPos
        ((rustLines buf ++
          List.replicate (cy + 1 - (rustLines buf).length) [])[cy] ++
          List.replicate (cx -
            (rustLines buf ++
              List.replicate (cy + 1 - (rustLines buf).length) [])[cy].length)
            ' ') cx)
        (utf8Length
          ((rustLines buf ++
            List.replicate (cy + 1 - (rustLines buf).length) [])[cy] ++
            List.replicate (cx -
              (rustLines buf ++
                List.replicate
                  (cy + 1 - (rustLines buf).length) [])[cy].length)
              ' ')) =
        safeCursorPos
          ((rustLines buf ++
            List.replicate (cy + 1 - (rustLines buf).length) [])[cy] ++
            List.replicate (cx -
              (rustLines buf ++
                List.replicate
                  (cy + 1 - (rustLines buf).length) [])[cy].length)
              ' ') cx := by
      omega
    rw [hmin, hsp]
    obtain ⟨l2, hl2⟩ := Option.isSome_iff_exists.mp
      (byteInsert?_boundary c _ k hk)
    rw [hl2]
    simp

/-- C10: for every text buffer and cursor row, delete_char_at_cursor at
cursor column 0 leaves the buffer and the cursor entirely unchanged:
backspace at the start of a line is a no-op and in particular never
joins the line with the preceding line. -/
theorem c10_delete_at_zero (buf : List Char) (cy : Nat) :
    deleteCharAtCursor buf 0 cy = (buf, 0, cy) := by
  simp [deleteCharAtCursor]

theorem rtrimSpaces_pref (cs : List Char) : rtrimSpaces cs <+: cs := by
  have h := List.dropWhile_suffix (l := cs.reverse) (fun c => c = ' ')
  have h2 : (cs.reverse.dropWhile (fun c => c = ' ')).reverse <+:
      cs.reverse.reverse := List.reverse_prefix.mpr h
  simpa [rtrimSpaces] using h2

theorem rtrimSpaces_blank {b : List Char} (h : rowBlank b = true) :
    rtrimSpaces b = [] := by
  have hall : ∀ x ∈ b.reverse, (fun c => decide (c = ' ')) x = true := by
    intro x hx
    have := List.all_eq_true.mp h x (List.mem_reverse.mp hx)
    simpa using this
  simp only [rtrimSpaces]
  rw [List.dropWhile_eq_nil_iff.mpr hall]
  rfl

theorem rtrimSpaces_idem (l : List Char) :
    rtrimSpaces (rtrimSpaces l) = rtrimSpaces l := by
  simp only [rtrimSpaces, List.reverse_reverse]
  rw [List.dropWhile_idempotent]

theorem dropWhile_replicate_space (k : Nat) (ys : List Char) :
    List.dropWhile (fun c => c = ' ') (List.replicate k ' ' ++ ys) =
      List.dropWhile (fun c => c = ' ') ys := by
  induction k with
  | zero => rfl
  | succ m ih => simpa [List.replicate_succ, List.dropWhile_cons] using ih

theorem rtrimSpaces_append_spaces (l : List Char) (k : Nat) :
    rtrimSpaces (l ++ List.replicate k ' ') = rtrimSpaces l := by
  simp only [rtrimSpaces, List.reverse_append, List.reverse_replicate]
  rw [dropWhile_replicate_space]

theorem joinNl_split (ls : List (List Char)) (hne : ls ≠ [])
    (h : ∀ l ∈ ls, ('\n' : Char) ∉ l) : splitNlAll (joinNl ls) = ls := by
  induction ls with
  | nil => exact absurd rfl hne
  | cons l ls ih =>
    cases ls with
    | nil =>
      exact splitNl_noNl (h l (List.mem_cons_self l []))
    | cons l2 ls2 =>
      have hjoin : joinNl (l :: l2 :: ls2) = l ++ '\n' :: joinNl (l2 :: ls2) :=
        rfl
      rw [hjoin, splitNl_after_line (h l (List.mem_cons_self l _))]
      rw [ih (List.cons_ne_nil l2 ls2)
        (fun l' hl' => h l' (List.mem_cons_of_mem l hl'))]

theorem rangeMap_getD (w : Nat) (l : List Char) (hle : l.length ≤ w) :
    (List.range w).map (fun c => l.getD c ' ') =
      l ++ List.replicate (w - l.length) ' ' := by
  induction l generalizing w with
  | nil =>
    have : (fun c => ([] : List Char).getD c ' ') = Function.const Nat ' ' := by
      funext c
      rfl
    rw [this, List.map_const, List.length_range]
    simp
  | cons a l ih =>
    cases w with
    | zero => simp at hle
    | succ m =>
      rw [List.range_succ_eq_map, List.map_cons, List.map_map]
      have hcomp : ((fun c => (a :: l).getD c ' ') ∘ Nat.succ) =
          (fun c => l.getD c ' ') := by
        funext c
        rfl
      rw [hcomp]
      rw [ih m (by simpa using hle)]
      simp

theorem fromText_getD_lt (w h : Nat) (t : List Char) (r : Nat) (hr : r < h) :
    (fromText w h t).getD r [] =
      (List.range w).map (fun c => ((splitNlAll t).getD r []).getD c ' ') := by
  rw [fromText, List.getD_eq_getElem?_getD, List.getElem?_map,
    List.getElem?_range hr]
  rfl

theorem fromText_getD_ge (w h : Nat) (t : List Char) (r : Nat) (hr : h ≤ r) :
    (fromText w h t).getD r [] = [] := by
  rw [fromText, List.getD_eq_getElem?_getD]
  have : h ≤ (List.range h).length := by simp
  rw [List.getElem?_eq_none (by simpa using hr)]
  rfl

theorem trimBlankRows_decomp (g : Grid) :
    ∃ B, g.dropWhile rowBlank = trimBlankRows g ++ B ∧
      ∀ b ∈ B, rowBlank b = true := by
  refine ⟨((g.dropWhile rowBlank).reverse.takeWhile rowBlank).reverse,
    ?_, ?_⟩
  · have hsplit := List.takeWhile_append_dropWhile rowBlank
      (g.dropWhile rowBlank).reverse
    have := congrArg List.reverse hsplit
    rw [List.reverse_append, List.reverse_reverse] at this
    exact this.symm
  · intro b hb
    exact List.mem_takeWhile_imp (List.mem_reverse.mp hb)

theorem rangeMap_nil (w : Nat) :
    (List.range w).map (fun c => ([] : List Char).getD c ' ') =
      List.replicate w ' ' := by
  rw [rangeMap_getD w [] (by simp)]
  simp

theorem rowBlank_replicate (w : Nat) :
    rowBlank (List.replicate w ' ') = true := by
  rw [rowBlank, List.all_eq_true]
  intro x hx
  rw [List.eq_of_mem_replicate hx]
  simp

theorem rtrimSpaces_dropWhile_none (g : Grid) (r : Nat)
    (hr : (g.dropWhile rowBlank).length ≤ r) :
    rtrimSpaces ((g.dropWhile rowBlank).getD r []) = [] := by
  rw [List.getD_eq_getElem?_getD, List.getElem?_eq_none hr]
  rfl

/-- C3 counterexample: the claimed round trip from_text(to_text(g))
fails to reproduce row content in place.  For the 2 by 2 grid whose
first row is blank and whose second row is "X ", to_text trims the
leading blank row, so the rebuilt grid has the X on row 0 and row 1
blank; row 1 of the rebuild and row 1 of the original differ in visible
content, not merely in trailing spaces. -/
theorem c3_round_trip_counterexample :
    rtrimSpaces ((fromText 2 2
        (toText [[' ', ' '], ['X', ' ']])).getD 1 []) ≠
      rtrimSpaces (([[' ', ' '], ['X', ' ']] : Grid).getD 1 []) := by
  decide

/-- C3 amended: rebuilding a grid from its own rendered text reproduces
the visible character content per row only up to the removal of leading
fully-blank rows: row r of from_text(to_text(g)) equals, up to trailing
spaces, row r of g with its leading blank rows dropped.  When the grid
has no leading blank rows this is the claimed per-row round trip;
leading and interior spacing inside each kept row survives. -/
theorem c3_round_trip_amended (g : Grid) (w h : Nat)
    (h1 : g.length = h) (h2 : ∀ r ∈ g, r.length = w)
    (hnl : ∀ r ∈ g, ('\n' : Char) ∉ r) (r : Nat) :
    rtrimSpaces ((fromText w h (toText g)).getD r []) =
      rtrimSpaces ((g.dropWhile rowBlank).getD r []) := by
  obtain ⟨B, hGB, hBblank⟩ := trimBlankRows_decomp g
  have hGsub : ∀ x ∈ g.dropWhile rowBlank, x ∈ g := fun x hx =>
    (List.dropWhile_suffix rowBlank).sublist.mem hx
  have hTsub : ∀ x ∈ trimBlankRows g, x ∈ g := fun x hx =>
    hGsub x (hGB ▸ List.mem_append_left B hx)
  have hGlen : (g.dropWhile rowBlank).length ≤ h :=
    h1 ▸ (List.dropWhile_suffix rowBlank).sublist.length_le
  by_cases hTnil : trimBlankRows g = []
  · have htox : toText g = [] := by
      simp [toText, hTnil, joinNl]
    rw [htox]
    have hGblank : ∀ x ∈ g.dropWhile rowBlank, rowBlank x = true := by
      rw [hGB, hTnil]
      simpa using hBblank
    have hrhs : rtrimSpaces ((g.dropWhile rowBlank).getD r []) = [] := by
      rw [List.getD_eq_getElem?_getD]
      cases hx : (g.dropWhile rowBlank)[r]? with
      | none => rfl
      | some row =>
        simp only [Option.getD_some]
        obtain ⟨hlt, hget⟩ := List.getElem?_eq_some_iff.mp hx
        exact rtrimSpaces_blank (hGblank row (hget ▸ List.getElem_mem hlt))
    rw [hrhs]
    by_cases hr : r < h
    · rw [fromText_getD_lt w h [] r hr]
      have hrr : ((splitNlAll ([] : List Char)).getD r []) = [] := by
        cases r <;> rfl
      rw [hrr, rangeMap_nil]
      exact rtrimSpaces_blank (rowBlank_replicate w)
    · rw [fromText_getD_ge w h [] r (by omega)]
      rfl
  · have hmapnl : ∀ l ∈ (trimBlankRows g).map rtrimSpaces,
        ('\n' : Char) ∉ l := by
      intro l hl
      obtain ⟨p, hp, rfl⟩ := List.mem_map.mp hl
      intro hc
      exact hnl p (hTsub p hp) ((rtrimSpaces_pref p).sublist.mem hc)
    have hmapne : (trimBlankRows g).map rtrimSpaces ≠ [] := by
      simpa using hTnil
    have hsplitT : splitNlAll (toText g) =
        (trimBlankRows g).map rtrimSpaces := by
      rw [toText]
      exact joinNl_split _ hmapne hmapnl
    by_cases hr : r < h
    · rw [fromText_getD_lt w h (toText g) r hr, hsplitT]
      by_cases hrT : r < (trimBlankRows g).length
      · have hline : ((trimBlankRows g).map rtrimSpaces).getD r [] =
            rtrimSpaces ((trimBlankRows g).getD r []) := by
          simp [List.getD_eq_getElem?_getD, List.getElem?_map,
            List.getElem?_eq_getElem hrT]
        rw [hline]
        have hmem : (trimBlankRows g).getD r [] ∈ g := by
          rw [List.getD_eq_getElem?_getD, List.getElem?_eq_getElem hrT]
          exact hTsub _ (List.getElem_mem hrT)
        have hlenle :
            (rtrimSpaces ((trimBlankRows g).getD r [])).length ≤ w := by
          have ha := (rtrimSpaces_pref ((trimBlankRows g).getD r [])).length_le
          have hb := h2 _ hmem
          omega
        rw [rangeMap_getD w _ hlenle, rtrimSpaces_append_spaces,
          rtrimSpaces_idem]
        have hGr : (g.dropWhile rowBlank).getD r [] =
            (trimBlankRows g).getD r [] := by
          rw [hGB, List.getD_eq_getElem?_getD, List.getElem?_append,
            if_pos hrT, ← List.getD_eq_getElem?_getD]
        rw [hGr]
      · have hline : ((trimBlankRows g).map rtrimSpaces).getD r [] = [] := by
          rw [List.getD_eq_getElem?_getD,
            List.getElem?_eq_none (by simpa using hrT)]
          rfl
        rw [hline, rangeMap_nil]
        rw [rtrimSpaces_blank (rowBlank_replicate w)]
        have hrhs : rtrimSpaces ((g.dropWhile rowBlank).getD r []) = [] := by
          rw [hGB, List.getD_eq_getElem?_getD, List.getElem?_append,
            if_neg (by omega)]
          cases hx : B[r - (trimBlankRows g).length]? with
          | none => rfl
          | some b =>
            simp only [Option.getD_some]
            obtain ⟨hlt, hget⟩ := List.getElem?_eq_some_iff.mp hx
            exact rtrimSpaces_blank
              (hBblank b (hget ▸ List.getElem_mem hlt))
        rw [hrhs]
    · rw [fromText_getD_ge w h (toText g) r (by omega)]
      rw [rtrimSpaces_dropWhile_none g r (by omega)]
      rfl

theorem c3_round_trip_amended_witness :
    ([[' ', ' '], ['X', ' ']] : Grid).length = 2 ∧
    rtrimSpaces ((fromText 2 2
        (toText [[' ', ' '], ['X', ' ']])).getD 0 []) =
      rtrimSpaces ((([[' ', ' '], ['X', ' ']] : Grid).dropWhile
        rowBlank).getD 0 []) :=
  ⟨rfl,
   c3_round_trip_amended [[' ', ' '], ['X', ' ']] 2 2 rfl (by decide)
     (by decide) 0⟩

end Chonker95
